import Mathlib

/-!
Shallow embedding of the one-frame-video-conv repository (the React
component in src/src/App.tsx and the near-duplicate variant component in
src/unnamed/part_000).  The embedding covers: the MP4 dimension
computation, the encoder and muxer configurations, the event trace of the
MP4 encoding path, the WebM canvas recording, the file-name rewriting for
result entries, the per-file conversion promises, and the upload handler
that accumulates results into the gallery list.
-/

/-- JavaScript Math.round applied to the nonnegative rational num / den:
round half away from zero, which for nonnegative values equals
floor of (num / den + 1 / 2), i.e. (2 * num + den) / (2 * den) in
natural-number division. -/
def jsRound (num den : Nat) : Nat := (2 * num + den) / (2 * den)

/-- Maximum long edge of the MP4 output, App.tsx line 40:
const MAX_SIZE = 1280. -/
def MAX_SIZE : Nat := 1280

/-- Step 1 of the size computation (App.tsx lines 46-54): when either edge
exceeds MAX_SIZE, clamp the longer edge to MAX_SIZE and scale the other
edge with Math.round.  In the first branch the new height is computed from
the original width (the source reassigns width only afterwards), and
symmetrically in the second branch. -/
def resizeDims (w h : Nat) : Nat × Nat :=
  if w > MAX_SIZE ∨ h > MAX_SIZE then
    if w > h then (MAX_SIZE, jsRound (h * MAX_SIZE) w)
    else (jsRound (w * MAX_SIZE) h, MAX_SIZE)
  else (w, h)

/-- Step 2 of the size computation (App.tsx lines 57-58): force a
dimension to be even by decrementing odd values,
width = width % 2 === 0 ? width : width - 1. -/
def forceEven (n : Nat) : Nat := if n % 2 = 0 then n else n - 1

/-- The complete dimension computation of convertImageToMP4
(App.tsx lines 40-58): long-edge clamp followed by even forcing. -/
def computeDims (w h : Nat) : Nat × Nat :=
  (forceEven (resizeDims w h).1, forceEven (resizeDims w h).2)

/-- The video settings handed to the mp4-muxer Muxer constructor
(App.tsx lines 61-69). -/
structure MuxerVideoConfig where
  codec : String
  width : Nat
  height : Nat
deriving DecidableEq, Repr

/-- The configuration handed to VideoEncoder.configure
(App.tsx lines 77-83). -/
structure EncoderConfig where
  codec : String
  width : Nat
  height : Nat
  bitrate : Nat
  framerate : Nat
deriving DecidableEq, Repr

/-- Muxer video settings built by convertImageToMP4 for an input image of
the given natural size. -/
def mp4MuxerConfig (w h : Nat) : MuxerVideoConfig :=
  { codec := "avc"
    width := (computeDims w h).1
    height := (computeDims w h).2 }

/-- VideoEncoder configuration built by convertImageToMP4 for an input
image of the given natural size. -/
def mp4EncoderConfig (w h : Nat) : EncoderConfig :=
  { codec := "avc1.640028"
    width := (computeDims w h).1
    height := (computeDims w h).2
    bitrate := 2000000
    framerate := 1 }

/-- An abstract decoded image: natural width and height together with an
opaque content token standing for the pixel data. -/
structure ImageData where
  width : Nat
  height : Nat
  content : Nat
deriving DecidableEq, Repr

/-- A 2D canvas after drawImage: its size and the content drawn onto it
(scaled to fill the canvas, as drawImage(img, 0, 0, width, height)
does). -/
structure CanvasContent where
  width : Nat
  height : Nat
  drawn : Nat
deriving DecidableEq, Repr

/-- The OffscreenCanvas of convertImageToMP4 (App.tsx lines 86-88) after
ctx.drawImage(img, 0, 0, width, height). -/
def drawToOffscreen (img : ImageData) (w h : Nat) : CanvasContent :=
  { width := w, height := h, drawn := img.content }

/-- Observable interactions of convertImageToMP4 with the encoder and the
muxer, in program order. -/
inductive EncoderEvent where
  | configure (cfg : EncoderConfig)
  | encode (canvas : CanvasContent) (timestamp : Nat) (keyFrame : Bool)
  | flush
  | finalize
deriving DecidableEq, Repr

/-- Whether an encoder event is an encode call. -/
def EncoderEvent.isEncode : EncoderEvent → Bool
  | .encode _ _ _ => true
  | _ => false

/-- The straight-line event trace of the MP4 path on a successfully
decoded image (App.tsx lines 77-101): configure the encoder, encode a
first key frame at timestamp 0 drawn from the offscreen canvas, encode a
second frame from the same canvas at timestamp 1000000 microseconds,
flush the encoder, finalize the muxer. -/
def mp4EventTrace (img : ImageData) : List EncoderEvent :=
  [ .configure (mp4EncoderConfig img.width img.height)
  , .encode (drawToOffscreen img (computeDims img.width img.height).1
      (computeDims img.width img.height).2) 0 true
  , .encode (drawToOffscreen img (computeDims img.width img.height).1
      (computeDims img.width img.height).2) 1000000 false
  , .flush
  , .finalize ]

/-- The WebM path's recording session (App.tsx lines 124-145 and
src/unnamed/part_000 lines 37-58): the visible canvas is resized to the
image's own dimensions and drawn at full size, captured at one frame per
second, recorded as video/webm, started at some instant and stopped by a
setTimeout of 1000 milliseconds. -/
structure WebMRecording where
  canvas : CanvasContent
  fps : Nat
  mimeType : String
  startMs : Nat
  stopMs : Nat
deriving DecidableEq, Repr

/-- The recording session convertImageToVideo sets up for a decoded image
when started at time t0 (milliseconds). -/
def webmRecording (img : ImageData) (t0 : Nat) : WebMRecording :=
  { canvas := { width := img.width, height := img.height, drawn := img.content }
    fps := 1
    mimeType := "video/webm"
    startMs := t0
    stopMs := t0 + 1000 }

/-- Whether a list of characters matches the regular expression
\.[^/.]+$ starting at its first character: a dot followed by a nonempty
run of characters none of which is a dot or a slash, reaching the end of
the string. -/
def extMatch : List Char → Bool
  | [] => false
  | c :: rest =>
      c == '.' && !rest.isEmpty && rest.all (fun d => d != '.' && d != '/')

/-- JavaScript String.replace(/\.[^\/.]+$/, "") on a list of characters:
scan left to right and delete the first (hence, as the pattern is
end-anchored, the only) suffix matching the pattern. -/
def stripLastExt : List Char → List Char
  | [] => []
  | c :: rest => if extMatch (c :: rest) then [] else c :: stripLastExt rest

/-- Result name of the MP4 path (App.tsx line 108):
file.name.replace(... , "") + ".mp4". -/
def mp4Name (fileName : List Char) : List Char :=
  stripLastExt fileName ++ (".mp4").data

/-- Result name of the WebM path (App.tsx line 139):
file.name.replace(... , "") + ".webm". -/
def webmName (fileName : List Char) : List Char :=
  stripLastExt fileName ++ (".webm").data

/-- An uploaded file, reduced to the one attribute the pipeline reads
from it: its name. -/
structure InputFile where
  name : List Char
deriving DecidableEq, Repr

/-- The record type managing converted video data (App.tsx lines 5-9). -/
structure ConvertedVideo where
  id : String
  name : List Char
  url : String
deriving DecidableEq, Repr

/-- Terminal observation of a JavaScript promise: settled with a value,
settled with a rejection reason, or never settled. -/
inductive PromiseResult (ε α : Type) where
  | resolved (value : α)
  | rejected (error : ε)
  | pending
deriving DecidableEq, Repr

/-- Whether a promise observation is a rejection. -/
def PromiseResult.isRejected {ε α : Type} : PromiseResult ε α → Bool
  | .rejected _ => true
  | _ => false

/-- Rejection reasons that can surface during a conversion. -/
inductive JSError where
  | imgLoadError
  | domError (msg : String)
deriving DecidableEq, Repr

/-- How a run of convertImageToMP4 can go: the image element fires
onerror; the try block around the size computation, encoding and muxing
throws; the VideoEncoder error callback fires; or everything succeeds. -/
inductive MP4Outcome where
  | imgError
  | bodyThrow (e : JSError)
  | encoderError (e : JSError)
  | success
deriving DecidableEq, Repr

/-- Settlement of the promise returned by convertImageToMP4
(App.tsx lines 33-117).  Every failure mode reaches reject: img.onerror
calls reject (line 115), the catch around the body calls reject
(line 112), and the encoder error callback calls reject (line 74).  On
success the promise resolves with a fresh id, the rewritten file name and
a fresh object URL (lines 106-110). -/
def convertImageToMP4Run (file : InputFile) (outcome : MP4Outcome)
    (freshId freshUrl : String) : PromiseResult JSError ConvertedVideo :=
  match outcome with
  | .imgError => .rejected .imgLoadError
  | .bodyThrow e => .rejected e
  | .encoderError e => .rejected e
  | .success =>
      .resolved { id := freshId, name := mp4Name file.name, url := freshUrl }

/-- How a run of convertImageToVideo can go: the image fails to load, or
the recording completes. -/
inductive WebMOutcome where
  | imgError
  | success
deriving DecidableEq, Repr

/-- Settlement of the promise returned by convertImageToVideo
(App.tsx lines 119-148).  The executor receives only resolve; no reject
callback exists and no img.onerror handler is installed, so when the
image fails to load nothing ever settles the promise: it stays pending
forever.  On success, recorder.onstop resolves with a fresh id, the
rewritten file name and a fresh object URL (lines 135-142). -/
def convertImageToVideoRun (file : InputFile) (outcome : WebMOutcome)
    (freshId freshUrl : String) : PromiseResult JSError ConvertedVideo :=
  match outcome with
  | .imgError => .pending
  | .success =>
      .resolved { id := freshId, name := webmName file.name, url := freshUrl }

/-- How the awaited loop over the uploaded files ends: all conversions
resolved, some conversion rejected (the async handler rejects there), or
some conversion never settles (the handler is stuck on its await). -/
inductive BatchOutcome where
  | completed
  | rejectedAt (e : JSError)
  | stuck
deriving DecidableEq, Repr

/-- The for-of loop of handleFileUpload (App.tsx lines 24-27): convert
each file in order, awaiting each promise, pushing each resolved video
onto the end of newVideos.  A rejection aborts the loop (the await
rethrows out of the async function); a never-settling promise leaves the
handler suspended.  Returns the accumulated newVideos and how the loop
ended. -/
def runBatch (conv : InputFile → PromiseResult JSError ConvertedVideo) :
    List InputFile → List ConvertedVideo → List ConvertedVideo × BatchOutcome
  | [], acc => (acc, .completed)
  | f :: fs, acc =>
      match conv f with
      | .resolved v => runBatch conv fs (acc ++ [v])
      | .rejected e => (acc, .rejectedAt e)
      | .pending => (acc, .stuck)

/-- The videos state after one call to handleFileUpload
(App.tsx lines 16-31) given the previous state.  A null file list
returns early.  Only when every conversion resolved does the handler
reach setVideos((prev) => [...newVideos, ...prev]); if the loop rejects
or gets stuck, setVideos is never called and the state keeps its previous
value. -/
def handleFileUpload (conv : InputFile → PromiseResult JSError ConvertedVideo)
    (files : Option (List InputFile)) (prev : List ConvertedVideo) :
    List ConvertedVideo :=
  match files with
  | none => prev
  | some fs =>
      match runBatch conv fs [] with
      | (newVideos, .completed) => newVideos ++ prev
      | (_, .rejectedAt _) => prev
      | (_, .stuck) => prev

/-- forceEven always produces an even number. -/
lemma forceEven_mod_two (n : Nat) : forceEven n % 2 = 0 := by
  unfold forceEven; split <;> omega

/-- forceEven never increases its argument. -/
lemma forceEven_le (n : Nat) : forceEven n ≤ n := by
  unfold forceEven; split <;> omega

/-- forceEven decreases its argument by at most one. -/
lemma le_forceEven_add_one (n : Nat) : n ≤ forceEven n + 1 := by
  unfold forceEven; split <;> omega

/-- forceEven is the identity on even numbers. -/
lemma forceEven_of_even (n : Nat) (h : n % 2 = 0) : forceEven n = n := by
  unfold forceEven; simp [h]

/-- Two-sided error of jsRound: the rounded quotient times the
denominator is within half a denominator of the numerator. -/
lemma jsRound_err (num den : Nat) (hden : 0 < den) :
    2 * num + 1 ≤ 2 * (jsRound num den * den) + den ∧
    2 * (jsRound num den * den) ≤ 2 * num + den := by
  have h := Nat.div_add_mod (2 * num + den) (2 * den)
  have hr : (2 * num + den) % (2 * den) < 2 * den := Nat.mod_lt _ (by omega)
  have e : 2 * den * ((2 * num + den) / (2 * den))
      = 2 * (((2 * num + den) / (2 * den)) * den) := by ring
  unfold jsRound
  omega

/-- Scaling down to the 1280 long edge never rounds above 1280 when the
scaled edge is at most the clamped edge. -/
lemma jsRound_le_1280 (a b : Nat) (hb : 0 < b) (hab : a ≤ b) :
    jsRound (a * 1280) b ≤ 1280 := by
  have h : 2 * (a * 1280) + b < 1281 * (2 * b) := by omega
  have h2 := (Nat.div_lt_iff_lt_mul (show 0 < 2 * b by omega)).mpr h
  unfold jsRound
  omega

/-- When the clamped edge exceeds 1280, the scaled edge never rounds
above its original value. -/
lemma jsRound_scale_le (a b : Nat) (hb : 1280 < b) : jsRound (a * 1280) b ≤ a := by
  have key : 2562 * a ≤ 2 * b * a := Nat.mul_le_mul_right a (by omega)
  have h : 2 * (a * 1280) + b < (a + 1) * (2 * b) := by
    have e : (a + 1) * (2 * b) = 2 * b * a + 2 * b := by ring
    omega
  have h2 := (Nat.div_lt_iff_lt_mul (show 0 < 2 * b by omega)).mpr h
  unfold jsRound
  exact Nat.le_of_lt_succ h2

/-- Cross-multiplied aspect deviation after even forcing, in the branch
where one output edge is exactly 1280 and the other is a rounded, then
even-forced, quotient q with rounding certificate A and B: the deviation
of n - forceEven q * w is at most 2 * w. -/
lemma natAbs_round_even_bound (n w q : Nat)
    (A : 2 * n + 1 ≤ 2 * (q * w) + w) (B : 2 * (q * w) ≤ 2 * n + w) :
    ((n : Int) - ((forceEven q : Nat) : Int) * (w : Nat)).natAbs ≤ 2 * w := by
  unfold forceEven
  split
  · have e : ((q * w : Nat) : Int) = (q : Int) * w := by push_cast; ring
    omega
  · have hq1 : 1 ≤ q := by omega
    have e : ((q - 1 : Nat) : Int) * (w : Nat) = ((q * w : Nat) : Int) - w := by
      push_cast [hq1]
      ring
    rw [e]
    omega

/-- forceEven of the clamp constant. -/
lemma forceEven_MAX : forceEven MAX_SIZE = 1280 := by decide

/-- computeDims in the branch where an edge exceeds the clamp and the
width is the longer edge. -/
lemma computeDims_wide (w h : Nat) (hcond : w > MAX_SIZE ∨ h > MAX_SIZE)
    (hwh : w > h) :
    computeDims w h = (forceEven MAX_SIZE, forceEven (jsRound (h * MAX_SIZE) w)) := by
  unfold computeDims resizeDims
  rw [if_pos hcond, if_pos hwh]

/-- computeDims in the branch where an edge exceeds the clamp and the
width is not the longer edge. -/
lemma computeDims_tall (w h : Nat) (hcond : w > MAX_SIZE ∨ h > MAX_SIZE)
    (hwh : ¬ w > h) :
    computeDims w h = (forceEven (jsRound (w * MAX_SIZE) h), forceEven MAX_SIZE) := by
  unfold computeDims resizeDims
  rw [if_pos hcond, if_neg hwh]

/-- computeDims when neither edge exceeds the clamp. -/
lemma computeDims_small (w h : Nat) (hcond : ¬ (w > MAX_SIZE ∨ h > MAX_SIZE)) :
    computeDims w h = (forceEven w, forceEven h) := by
  unfold computeDims resizeDims
  rw [if_neg hcond]

/-- C1: for every input image with positive width and height, the MP4
pipeline's computed dimensions are both even, their longer edge is at
most 1280, and the cross-multiplied aspect deviation between output and
input stays within integer-rounding tolerance (at most two pixels' worth
of the larger input edge). -/
theorem mp4_dims_even_bounded_aspect (w h : Nat) (hw : 0 < w) (hh : 0 < h) :
    (computeDims w h).1 % 2 = 0 ∧ (computeDims w h).2 % 2 = 0 ∧
    max (computeDims w h).1 (computeDims w h).2 ≤ 1280 ∧
    (((computeDims w h).1 : Int) * h - ((computeDims w h).2 : Int) * w).natAbs
      ≤ 2 * max w h := by
  by_cases hcond : w > MAX_SIZE ∨ h > MAX_SIZE
  · by_cases hwh : w > h
    · rw [computeDims_wide w h hcond hwh]
      dsimp only
      rw [forceEven_MAX]
      have hW : 1280 < w := by unfold MAX_SIZE at hcond; omega
      obtain ⟨A, B⟩ := jsRound_err (h * MAX_SIZE) w (by omega)
      have hq : jsRound (h * MAX_SIZE) w ≤ 1280 := by
        unfold MAX_SIZE
        exact jsRound_le_1280 h w (by omega) (by omega)
      have hfe := forceEven_le (jsRound (h * MAX_SIZE) w)
      have L := natAbs_round_even_bound (h * MAX_SIZE) w (jsRound (h * MAX_SIZE) w) A B
      have e2 : ((h * MAX_SIZE : Nat) : Int) = 1280 * (h : Int) := by
        unfold MAX_SIZE; push_cast; ring
      exact ⟨by decide, forceEven_mod_two _, by omega, by omega⟩
    · rw [computeDims_tall w h hcond hwh]
      dsimp only
      rw [forceEven_MAX]
      have hH : 1280 < h := by unfold MAX_SIZE at hcond; omega
      obtain ⟨A, B⟩ := jsRound_err (w * MAX_SIZE) h (by omega)
      have hq : jsRound (w * MAX_SIZE) h ≤ 1280 := by
        unfold MAX_SIZE
        exact jsRound_le_1280 w h (by omega) (by omega)
      have hfe := forceEven_le (jsRound (w * MAX_SIZE) h)
      have L := natAbs_round_even_bound (w * MAX_SIZE) h (jsRound (w * MAX_SIZE) h) A B
      have e2 : ((w * MAX_SIZE : Nat) : Int) = 1280 * (w : Int) := by
        unfold MAX_SIZE; push_cast; ring
      exact ⟨forceEven_mod_two _, by decide, by omega, by omega⟩
  · rw [computeDims_small w h hcond]
    dsimp only
    have hsmall : w ≤ 1280 ∧ h ≤ 1280 := by unfold MAX_SIZE at hcond; omega
    have P1 : forceEven w * h ≤ w * h := Nat.mul_le_mul_right h (forceEven_le w)
    have P2 : w * h ≤ forceEven w * h + h := by
      have t := Nat.mul_le_mul_right h (le_forceEven_add_one w)
      have e : (forceEven w + 1) * h = forceEven w * h + h := by ring
      omega
    have Q1 : forceEven h * w ≤ h * w := Nat.mul_le_mul_right w (forceEven_le h)
    have Q2 : h * w ≤ forceEven h * w + w := by
      have t := Nat.mul_le_mul_right w (le_forceEven_add_one h)
      have e : (forceEven h + 1) * w = forceEven h * w + w := by ring
      omega
    have ecomm : w * h = h * w := Nat.mul_comm w h
    have c1 : ((forceEven w * h : Nat) : Int) = ((forceEven w : Nat) : Int) * h := by
      push_cast; ring
    have c2 : ((forceEven h * w : Nat) : Int) = ((forceEven h : Nat) : Int) * w := by
      push_cast; ring
    have hle1 := forceEven_le w
    have hle2 := forceEven_le h
    exact ⟨forceEven_mod_two _, forceEven_mod_two _, by omega, by omega⟩

/-- Witness for C1 at a 1920 by 1080 input, which computeDims maps to
1280 by 720. -/
theorem mp4_dims_even_bounded_aspect_witness :
    0 < 1920 ∧ 0 < 1080 ∧
    ((computeDims 1920 1080).1 % 2 = 0 ∧ (computeDims 1920 1080).2 % 2 = 0 ∧
      max (computeDims 1920 1080).1 (computeDims 1920 1080).2 ≤ 1280 ∧
      (((computeDims 1920 1080).1 : Int) * 1080
        - ((computeDims 1920 1080).2 : Int) * 1920).natAbs ≤ 2 * max 1920 1080) :=
  ⟨by decide, by decide,
    mp4_dims_even_bounded_aspect 1920 1080 (by decide) (by decide)⟩

/-- C9: the MP4 dimension computation never enlarges either edge, and on
inputs that are already even and within the clamp it is the identity. -/
theorem mp4_dims_no_enlarge (w h : Nat) :
    (computeDims w h).1 ≤ w ∧ (computeDims w h).2 ≤ h ∧
    (w % 2 = 0 → h % 2 = 0 → w ≤ 1280 → h ≤ 1280 → computeDims w h = (w, h)) := by
  by_cases hcond : w > MAX_SIZE ∨ h > MAX_SIZE
  · by_cases hwh : w > h
    · have hW : 1280 < w := by unfold MAX_SIZE at hcond; omega
      have hq : jsRound (h * MAX_SIZE) w ≤ h := by
        unfold MAX_SIZE
        exact jsRound_scale_le h w hW
      have hfe := forceEven_le (jsRound (h * MAX_SIZE) w)
      rw [computeDims_wide w h hcond hwh]
      dsimp only
      rw [forceEven_MAX]
      exact ⟨by omega, by omega, fun _ _ h3 _ => absurd h3 (by omega)⟩
    · have hH : 1280 < h := by unfold MAX_SIZE at hcond; omega
      have hq : jsRound (w * MAX_SIZE) h ≤ w := by
        unfold MAX_SIZE
        exact jsRound_scale_le w h hH
      have hfe := forceEven_le (jsRound (w * MAX_SIZE) h)
      rw [computeDims_tall w h hcond hwh]
      dsimp only
      rw [forceEven_MAX]
      exact ⟨by omega, by omega, fun _ _ _ h4 => absurd h4 (by omega)⟩
  · rw [computeDims_small w h hcond]
    dsimp only
    refine ⟨forceEven_le w, forceEven_le h, fun he1 he2 _ _ => ?_⟩
    rw [forceEven_of_even w he1, forceEven_of_even h he2]

/-- Witness for C9 at a 4 by 6 input, already even and within the clamp,
where the computation is the identity. -/
theorem mp4_dims_no_enlarge_witness :
    (computeDims 4 6).1 ≤ 4 ∧ (computeDims 4 6).2 ≤ 6 ∧ computeDims 4 6 = (4, 6) :=
  ⟨(mp4_dims_no_enlarge 4 6).1, (mp4_dims_no_enlarge 4 6).2.1,
    (mp4_dims_no_enlarge 4 6).2.2 (by decide) (by decide) (by decide) (by decide)⟩

/-- C10: the dimension computation does not guarantee positive output: a
1 by 1 image is forced down to 0 by 0, and those zero dimensions flow
into both the muxer settings and the encoder configuration. -/
theorem mp4_zero_dims_reach_encoder :
    computeDims 1 1 = (0, 0) ∧
    (mp4MuxerConfig 1 1).width = 0 ∧ (mp4MuxerConfig 1 1).height = 0 ∧
    (mp4EncoderConfig 1 1).width = 0 ∧ (mp4EncoderConfig 1 1).height = 0 := by
  decide

/-- When every file in the list resolves, the loop of handleFileUpload
appends one video per file, in file order, after the accumulator. -/
lemma runBatch_all_resolved (conv : InputFile → PromiseResult JSError ConvertedVideo)
    (g : InputFile → ConvertedVideo) :
    ∀ (files : List InputFile) (acc : List ConvertedVideo),
      (∀ f ∈ files, conv f = PromiseResult.resolved (g f)) →
      runBatch conv files acc = (acc ++ files.map g, BatchOutcome.completed) := by
  intro files
  induction files with
  | nil => intro acc _; simp [runBatch]
  | cons f fs ih =>
      intro acc hall
      have hf : conv f = PromiseResult.resolved (g f) := hall f (by simp)
      simp only [runBatch, hf]
      rw [ih (acc ++ [g f]) (fun x hx => hall x (by simp [hx]))]
      simp

/-- When the files before bad all resolve and bad rejects, the loop stops
at bad with exactly the earlier videos accumulated. -/
lemma runBatch_fail_at (conv : InputFile → PromiseResult JSError ConvertedVideo)
    (g : InputFile → ConvertedVideo) (bad : InputFile) (rest : List InputFile)
    (e : JSError) :
    ∀ (pre : List InputFile) (acc : List ConvertedVideo),
      (∀ f ∈ pre, conv f = PromiseResult.resolved (g f)) →
      conv bad = PromiseResult.rejected e →
      runBatch conv (pre ++ bad :: rest) acc
        = (acc ++ pre.map g, BatchOutcome.rejectedAt e) := by
  intro pre
  induction pre with
  | nil =>
      intro acc _ hbad
      simp [runBatch, hbad]
  | cons f fs ih =>
      intro acc hall hbad
      have hf : conv f = PromiseResult.resolved (g f) := hall f (by simp)
      simp only [List.cons_append, runBatch, hf, List.append_eq]
      rw [ih (acc ++ [g f]) (fun x hx => hall x (by simp [hx])) hbad]
      simp

/-- C3: uploading files that all convert successfully adds exactly one
entry per file, as a block prepended before the previous entries, with
the new entries in file-list order. -/
theorem upload_prepends_in_order
    (conv : InputFile → PromiseResult JSError ConvertedVideo)
    (files : List InputFile) (prev : List ConvertedVideo)
    (g : InputFile → ConvertedVideo)
    (hall : ∀ f ∈ files, conv f = PromiseResult.resolved (g f)) :
    handleFileUpload conv (some files) prev = files.map g ++ prev ∧
    (files.map g).length = files.length := by
  simp only [handleFileUpload]
  rw [runBatch_all_resolved conv g files [] hall]
  simp

/-- Sample conversion for witnesses: every file resolves with a fixed id
and url and the MP4-rewritten name. -/
def sampleOk (f : InputFile) : ConvertedVideo :=
  { id := "id0", name := mp4Name f.name, url := "url0" }

/-- Promise view of sampleOk. -/
def sampleOkConv (f : InputFile) : PromiseResult JSError ConvertedVideo :=
  PromiseResult.resolved (sampleOk f)

/-- A first sample input file. -/
def fileA : InputFile := ⟨("a.png").data⟩

/-- A second sample input file. -/
def fileB : InputFile := ⟨("b.jpg").data⟩

/-- A sample pre-existing gallery entry. -/
def vidPrev : ConvertedVideo :=
  { id := "old", name := ("old.mp4").data, url := "urlold" }

/-- Witness for C3 with two files that both resolve. -/
theorem upload_prepends_in_order_witness :
    handleFileUpload sampleOkConv (some [fileA, fileB]) [vidPrev]
      = [fileA, fileB].map sampleOk ++ [vidPrev] ∧
    ([fileA, fileB].map sampleOk).length = ([fileA, fileB] : List InputFile).length :=
  upload_prepends_in_order sampleOkConv [fileA, fileB] [vidPrev] sampleOk
    (fun _ _ => rfl)

/-- Conversion for the C4 counterexample: the file named a.png resolves,
every other file rejects. -/
def convFailSecond (f : InputFile) : PromiseResult JSError ConvertedVideo :=
  if f.name = ("a.png").data then PromiseResult.resolved (sampleOk f)
  else PromiseResult.rejected (JSError.domError "decode failed")

/-- C4 counterexample: in a batch where a.png converts successfully and
the following file b.jpg fails, the earlier file's entry is produced by
its conversion, yet the resulting gallery list is empty: the earlier
entry is not retained in the result list. -/
theorem upload_failure_drops_earlier_results_counterexample :
    convFailSecond fileA = PromiseResult.resolved (sampleOk fileA) ∧
    handleFileUpload convFailSecond (some [fileA, fileB]) [] = [] := by
  exact ⟨by decide, by decide⟩

/-- C4 amended: when the files before a failing file all convert, their
entries are accumulated by the loop (runBatch returns exactly them), but
the rejection aborts the handler before setVideos runs, so the gallery
list keeps its previous value and the earlier entries are not added. -/
theorem upload_failure_keeps_list_unchanged
    (conv : InputFile → PromiseResult JSError ConvertedVideo)
    (pre rest : List InputFile) (bad : InputFile)
    (g : InputFile → ConvertedVideo) (e : JSError)
    (prev : List ConvertedVideo)
    (hpre : ∀ f ∈ pre, conv f = PromiseResult.resolved (g f))
    (hbad : conv bad = PromiseResult.rejected e) :
    runBatch conv (pre ++ bad :: rest) [] = (pre.map g, BatchOutcome.rejectedAt e) ∧
    handleFileUpload conv (some (pre ++ bad :: rest)) prev = prev := by
  have hrb := runBatch_fail_at conv g bad rest e pre [] hpre hbad
  simp only [List.nil_append] at hrb
  refine ⟨hrb, ?_⟩
  simp only [handleFileUpload]
  rw [hrb]

/-- Witness for the amended C4 at a concrete two-file batch. -/
theorem upload_failure_keeps_list_unchanged_witness :
    runBatch convFailSecond ([fileA] ++ fileB :: []) []
      = ([fileA].map sampleOk,
          BatchOutcome.rejectedAt (JSError.domError "decode failed")) ∧
    handleFileUpload convFailSecond (some ([fileA] ++ fileB :: [])) [vidPrev]
      = [vidPrev] :=
  upload_failure_keeps_list_unchanged convFailSecond [fileA] [] fileB sampleOk
    (JSError.domError "decode failed") [vidPrev] (by decide) (by decide)

/-- C2 counterexample: a failed image load on the WebM path does not
reject the promise returned by convertImageToVideo: the promise stays
pending, because the executor has no reject callback and no onerror
handler is installed. -/
theorem webm_failure_not_rejected_counterexample :
    convertImageToVideoRun fileA WebMOutcome.imgError "id1" "url1"
      = PromiseResult.pending ∧
    (convertImageToVideoRun fileA WebMOutcome.imgError "id1" "url1").isRejected
      = false :=
  ⟨rfl, rfl⟩

/-- C2 amended: every failure of the MP4 path (image load error, a throw
inside the handler body, the encoder error callback) rejects the promise
returned by convertImageToMP4; on the WebM path, a failed image load
leaves the promise returned by convertImageToVideo pending forever
instead of rejecting it. -/
theorem conversion_failures_reject_mp4_only (f : InputFile) (o : MP4Outcome)
    (i1 u1 i2 u2 : String) (ho : o ≠ MP4Outcome.success) :
    (convertImageToMP4Run f o i1 u1).isRejected = true ∧
    convertImageToVideoRun f WebMOutcome.imgError i2 u2 = PromiseResult.pending := by
  refine ⟨?_, rfl⟩
  cases o with
  | imgError => rfl
  | bodyThrow e => rfl
  | encoderError e => rfl
  | success => exact absurd rfl ho

/-- Witness for the amended C2 at the image-load failure outcome. -/
theorem conversion_failures_reject_mp4_only_witness :
    (convertImageToMP4Run fileA MP4Outcome.imgError "i" "u").isRejected = true ∧
    convertImageToVideoRun fileA WebMOutcome.imgError "i" "u"
      = PromiseResult.pending :=
  conversion_failures_reject_mp4_only fileA MP4Outcome.imgError "i" "u" "i" "u"
    (by decide)

/-- The end-anchored pattern cannot match at a position whose tail still
holds a dot. -/
lemma extMatch_false_of_dot_mem (c : Char) (t : List Char) (hd : '.' ∈ t) :
    extMatch (c :: t) = false := by
  have hall : t.all (fun d => d != '.' && d != '/') = false := by
    rw [List.all_eq_false]
    exact ⟨'.', hd, by simp⟩
  simp [extMatch, hall]

/-- Stripping a well-formed final extension: for a nonempty extension
with no dot and no slash, the regex replacement removes exactly the final
dot and the extension. -/
lemma stripLastExt_append_ext (base ext : List Char) (hne : ext ≠ [])
    (hdot : '.' ∉ ext) (hslash : '/' ∉ ext) :
    stripLastExt (base ++ '.' :: ext) = base := by
  induction base with
  | nil =>
      have hm : extMatch ('.' :: ext) = true := by
        simp only [extMatch, Bool.and_eq_true, beq_self_eq_true, true_and,
          Bool.not_eq_true', List.all_eq_true]
        refine ⟨by simp [List.isEmpty_iff, hne], ?_⟩
        intro d hd2
        simp only [Bool.and_eq_true, bne_iff_ne, ne_eq]
        exact ⟨fun hdd => hdot (hdd ▸ hd2), fun hdd => hslash (hdd ▸ hd2)⟩
      simp only [List.nil_append, stripLastExt]
      rw [if_pos hm]
  | cons c cs ih =>
      have hm := extMatch_false_of_dot_mem c (cs ++ '.' :: ext) (by simp)
      simp only [List.cons_append, stripLastExt, List.append_eq]
      rw [if_neg (by simp [hm]), ih]

/-- A name holding no dot is left unchanged by the regex replacement. -/
lemma stripLastExt_no_dot (l : List Char) (hnd : '.' ∉ l) : stripLastExt l = l := by
  induction l with
  | nil => rfl
  | cons c cs ih =>
      have hc : c ≠ '.' := fun hc => hnd (by simp [hc])
      have hm : extMatch (c :: cs) = false := by
        simp [extMatch, hc]
      simp only [stripLastExt]
      rw [if_neg (by simp [hm]), ih (fun hmem => hnd (by simp [hmem]))]

/-- C5: the result's display and download name is the source file's name
with its final extension (a nonempty dot-free, slash-free suffix after
the last dot) stripped and the output extension appended: .mp4 on the MP4
path and .webm on the WebM path; a name with no dot gains the output
extension with nothing stripped. -/
theorem result_names_replace_extension (base ext plain : List Char)
    (i1 u1 i2 u2 : String)
    (hne : ext ≠ []) (hdot : '.' ∉ ext) (hslash : '/' ∉ ext)
    (hplain : '.' ∉ plain) :
    convertImageToMP4Run ⟨base ++ '.' :: ext⟩ MP4Outcome.success i1 u1
      = PromiseResult.resolved ⟨i1, base ++ (".mp4").data, u1⟩ ∧
    convertImageToVideoRun ⟨base ++ '.' :: ext⟩ WebMOutcome.success i2 u2
      = PromiseResult.resolved ⟨i2, base ++ (".webm").data, u2⟩ ∧
    mp4Name plain = plain ++ (".mp4").data ∧
    webmName plain = plain ++ (".webm").data := by
  have hs := stripLastExt_append_ext base ext hne hdot hslash
  have hp := stripLastExt_no_dot plain hplain
  exact ⟨by simp [convertImageToMP4Run, mp4Name, hs],
    by simp [convertImageToVideoRun, webmName, hs],
    by simp [mp4Name, hp], by simp [webmName, hp]⟩

/-- Witness for C5 on photo.png and on the extensionless name noext. -/
theorem result_names_replace_extension_witness :
    convertImageToMP4Run ⟨("photo").data ++ '.' :: ("png").data⟩
        MP4Outcome.success "i" "u"
      = PromiseResult.resolved ⟨"i", ("photo").data ++ (".mp4").data, "u"⟩ ∧
    convertImageToVideoRun ⟨("photo").data ++ '.' :: ("png").data⟩
        WebMOutcome.success "i" "u"
      = PromiseResult.resolved ⟨"i", ("photo").data ++ (".webm").data, "u"⟩ ∧
    mp4Name ("noext").data = ("noext").data ++ (".mp4").data ∧
    webmName ("noext").data = ("noext").data ++ (".webm").data :=
  result_names_replace_extension ("photo").data ("png").data ("noext").data
    "i" "u" "i" "u" (by decide) (by decide) (by decide) (by decide)

/-- C6: on every successfully decoded image the MP4 path emits exactly
two encode calls, both of the same canvas content (hence identical
frames), at timestamps 0 and 1000000 microseconds (one second apart),
the first marked as a key frame, followed by the encoder flush and then
the muxer finalize. -/
theorem mp4_two_identical_frames (img : ImageData) :
    ∃ c : CanvasContent,
      mp4EventTrace img
        = [ EncoderEvent.configure (mp4EncoderConfig img.width img.height)
          , EncoderEvent.encode c 0 true
          , EncoderEvent.encode c 1000000 false
          , EncoderEvent.flush
          , EncoderEvent.finalize ] ∧
      (mp4EventTrace img).filter EncoderEvent.isEncode
        = [EncoderEvent.encode c 0 true, EncoderEvent.encode c 1000000 false] :=
  ⟨drawToOffscreen img (computeDims img.width img.height).1
      (computeDims img.width img.height).2, rfl, rfl⟩

/-- C7: the WebM path records the one-frame-per-second canvas capture for
exactly the fixed one-second timer interval: the stop is scheduled 1000
milliseconds after the start, the capture runs at 1 fps, and the output
is video/webm. -/
theorem webm_records_one_second (img : ImageData) (t0 : Nat) :
    (webmRecording img t0).stopMs - (webmRecording img t0).startMs = 1000 ∧
    (webmRecording img t0).fps = 1 ∧
    (webmRecording img t0).mimeType = "video/webm" := by
  refine ⟨?_, rfl, rfl⟩
  simp [webmRecording]

/-- C8: one handleFileUpload call only ever prepends a block of new
entries: the previous entries reappear unchanged, in order, as the tail
of the new list, whatever the conversion outcomes were. -/
theorem results_preserve_existing
    (conv : InputFile → PromiseResult JSError ConvertedVideo)
    (files : Option (List InputFile)) (prev : List ConvertedVideo) :
    ∃ newBlock,
      handleFileUpload conv files prev = newBlock ++ prev ∧
      ∀ v ∈ prev, v ∈ handleFileUpload conv files prev := by
  have base : ∃ newBlock, handleFileUpload conv files prev = newBlock ++ prev := by
    cases files with
    | none => exact ⟨[], rfl⟩
    | some fs =>
        simp only [handleFileUpload]
        rcases hrb : runBatch conv fs [] with ⟨nv, outc⟩
        cases outc with
        | completed => exact ⟨nv, rfl⟩
        | rejectedAt e => exact ⟨[], rfl⟩
        | stuck => exact ⟨[], rfl⟩
  obtain ⟨nb, hnb⟩ := base
  exact ⟨nb, hnb, fun v hv => hnb ▸ List.mem_append_right nb hv⟩
